import Mathlib

/-!
Shallow embedding of `rd_purge_history.py`, the Rundeck history purge tool.

The core of the script is `purge_history(client, project, job_filter,
keep_history_size, chunk_size, max_delete_size, dry_run)`.  It reads the
current history total for the (project, job_filter) pair, clamps the keep
size, computes the number of deletions bounded by the cap, partitions it
with the Python `divmod` builtin into full chunks plus a remainder, and walks the
history pages issuing bulk-delete calls.

Modelling choices:
* Python integers are unbounded, so every numeric value is `Int`.
  Python `divmod(a, b)` is floor division, i.e. `Int.fdiv` / `Int.fmod`.
* The remote server (the `Client` plus the Rundeck API behind it) is an
  abstract `Server`: `total` models the value parsed by
  `get_history_total`, `execIds offset hmax` models the list returned by
  `get_execution_ids(client, project, job_filter, offset, hmax)`, and
  `deleteResp ids` models the parsed XML response of
  `POST executions/delete` (a `successful` count, the `allsuccessful`
  flag and the per-execution error messages).  `project` and
  `job_filter` are fixed for a run, so they are folded into the server.
  Execution ids are modelled as `Nat`.
* The observable behaviour of a run is a trace of `Event`s: the initial
  count query issued by `get_history_total`, each history fetch issued by
  `get_execution_ids` (with its offset and max), the `logging.info` call
  listing the ids handed to `delete_executions`, the destructive
  `POST executions/delete`, and the `logging.error` call on partial
  failure.
* `chunk_size = 0` makes the Python `divmod` raise `ZeroDivisionError`, so
  `purge_history` returns an `Option`, `none` in exactly that case.
-/

namespace RdPurge

/-- Parsed XML response of `POST executions/delete`: the `successful`
element count, the `allsuccessful` attribute and the per-execution
error messages. -/
structure DeleteResponse where
  count : Int
  allsuccessful : Bool
  messages : List String
deriving DecidableEq, Repr

/-- The remote server as seen by one run: history total, execution-id
pages, and deletion responses. -/
structure Server where
  total : Int
  execIds : Int → Int → List Nat
  deleteResp : List Nat → DeleteResponse

/-- Observable events of a run, in order. -/
inductive Event where
  | countQuery : Event
  | fetch (offset hmax : Int) : Event
  | logPurge (ids : List Nat) : Event
  | post (ids : List Nat) : Event
  | logError (messages : List String) : Event
deriving DecidableEq, Repr

/-- Holds exactly for the destructive `POST executions/delete` event. -/
def Event.isPost : Event → Bool
  | .post _ => true
  | _ => false

/-- Python slice `l[-k:]` for an integer `k` (the code writes
`ids[-chunk_size:]`): for `k > 0` the last `k` elements (all of `l`
when `l` is shorter), for `k = 0` all of `l` (since `-0 == 0`), and for
`k < 0` the slice `l[(-k):]`. -/
def pySliceLast (l : List Nat) (k : Int) : List Nat :=
  if k = 0 then l
  else if 0 < k then l.drop (l.length - k.toNat)
  else l.drop (-k).toNat

/-- Line 54: `keep_history_size = min(total, keep_history_size)`. -/
def clampedKeep (total keep_history_size : Int) : Int :=
  min total keep_history_size

/-- Line 55: `deletions = min(max_delete_size, total - keep_history_size)`
(with the already clamped keep size). -/
def plannedDeletions (total keep_history_size max_delete_size : Int) : Int :=
  min max_delete_size (total - clampedKeep total keep_history_size)

/-- Line 59, first component: `chunk_num, remains = divmod(deletions, chunk_size)`. -/
def chunk_num (deletions chunk_size : Int) : Int :=
  Int.fdiv deletions chunk_size

/-- Line 59, second component of the same `divmod`. -/
def remains (deletions chunk_size : Int) : Int :=
  Int.fmod deletions chunk_size

/-- Lines 123-136, `Client.delete_executions(ids, dry_run)`: log the ids,
then unless `dry_run` issue the POST, read the confirmed count, and on
`allsuccessful == false` log the error messages; the confirmed count is
returned either way, `0` under `dry_run`. -/
def delete_executions (srv : Server) (ids : List Nat) (dry_run : Bool) :
    Int × List Event :=
  if dry_run then (0, [Event.logPurge ids])
  else
    let resp := srv.deleteResp ids
    if resp.allsuccessful then
      (resp.count, [Event.logPurge ids, Event.post ids])
    else
      (resp.count, [Event.logPurge ids, Event.post ids,
        Event.logError resp.messages])

/-- Lines 61-74, the `for i in range(chunk_num)` loop, run for `n`
iterations.  Returns the final value of the `offset` variable (initialised
to `total` before the loop), the accumulated `deleted` count and the event
trace.  Iteration `i` sets `offset = total - chunk_size * (i + 1)`, fetches
that page, truncates it to its last `chunk_size` elements
(`ids = ids[-chunk_size:]`) and hands it to `delete_executions`. -/
def runChunks (srv : Server) (total chunk_size : Int) (dry_run : Bool) :
    Nat → Int × Int × List Event
  | 0 => (total, 0, [])
  | n + 1 =>
    let prev := runChunks srv total chunk_size dry_run n
    let offset := total - chunk_size * ((n : Int) + 1)
    let ids := pySliceLast (srv.execIds offset chunk_size) chunk_size
    let res := delete_executions srv ids dry_run
    (offset, prev.2.1 + res.1,
      prev.2.2 ++ Event.fetch offset chunk_size :: res.2)

/-- Lines 44-81, `purge_history`.  `none` models the `ZeroDivisionError`
raised by `divmod(deletions, 0)`; otherwise the returned `deleted` count
together with the event trace.  A Python `range` of a negative length is
empty, which `Int.toNat` reproduces.  After the loop the code runs the
`if remains > 0` branch: `offset -= remains`, one more fetch of `remains`
records (passed to deletion untruncated). -/
def purge_history (srv : Server)
    (keep_history_size chunk_size max_delete_size : Int) (dry_run : Bool) :
    Option (Int × List Event) :=
  let total := srv.total
  let deletions := plannedDeletions total keep_history_size max_delete_size
  if chunk_size = 0 then none
  else
    let cn := chunk_num deletions chunk_size
    let rem := remains deletions chunk_size
    let st := runChunks srv total chunk_size dry_run cn.toNat
    if 0 < rem then
      let offset := st.1 - rem
      let ids := srv.execIds offset rem
      let res := delete_executions srv ids dry_run
      some (st.2.1 + res.1,
        Event.countQuery :: (st.2.2 ++ Event.fetch offset rem :: res.2))
    else
      some (st.2.1, Event.countQuery :: st.2.2)

/-- The `(offset, max)` pairs of the execution-id fetches in a trace. -/
def fetches (evs : List Event) : List (Int × Int) :=
  evs.filterMap fun e =>
    match e with
    | .fetch o m => some (o, m)
    | _ => none

/-- A well-behaved server with `total` records: page `(o, m)` holds the
ids `o, o+1, …, o+m-1` (most-recent-first indexing by offset) and every
deletion succeeds in full. -/
def mkServer (total : Int) : Server where
  total := total
  execIds := fun o m => (List.range m.toNat).map fun j => o.toNat + j
  deleteResp := fun ids => ⟨ids.length, true, []⟩

/-- A server with 55 records where any deletion batch containing id 35
is only accepted in part: 18 confirmed, `allsuccessful == "false"`, one
error message.  Every other batch succeeds in full. -/
def srvPartFail : Server where
  total := 55
  execIds := fun o m => (List.range m.toNat).map fun j => o.toNat + j
  deleteResp := fun ids =>
    if 35 ∈ ids then ⟨18, false, ["Unauthorized"]⟩
    else ⟨(ids.length : Int), true, []⟩

/-- A server with 5 records whose history endpoint always returns seven
ids, more than any requested page size, and whose deletions succeed. -/
def srvOver : Server where
  total := 5
  execIds := fun _ _ => [0, 1, 2, 3, 4, 5, 6]
  deleteResp := fun ids => ⟨(ids.length : Int), true, []⟩

end RdPurge

namespace RdPurge

/-- C1: for all `total, keepCount, maxDelete ≥ 0`, the number of
deletions computed by `purge_history` (line 55) equals
`min maxDelete (max 0 (total - min total keepCount))`, and it is at most
`total`. -/
theorem C1_plan_formula (total keep_history_size max_delete_size : Int)
    (ht : 0 ≤ total) (hk : 0 ≤ keep_history_size)
    (hm : 0 ≤ max_delete_size) :
    plannedDeletions total keep_history_size max_delete_size =
      min max_delete_size (max 0 (total - min total keep_history_size)) ∧
    plannedDeletions total keep_history_size max_delete_size ≤ total := by
  unfold plannedDeletions clampedKeep
  omega

/-- Witness for C1 at `total = 10`, `keepCount = 3`, `maxDelete = 5`. -/
theorem C1_plan_formula_witness :
    (0:Int) ≤ 10 ∧ (0:Int) ≤ 3 ∧ (0:Int) ≤ 5 ∧
    (plannedDeletions 10 3 5 = min 5 (max 0 (10 - min 10 3)) ∧
      plannedDeletions 10 3 5 ≤ 10) :=
  ⟨by decide, by decide, by decide,
    C1_plan_formula 10 3 5 (by decide) (by decide) (by decide)⟩

/-- C6: for `deletions ≥ 0` and `chunkSize ≥ 1`, the partition produced
by `divmod(deletions, chunk_size)` on line 59 satisfies
`chunk_num * chunk_size + remains = deletions` with
`0 ≤ remains < chunk_size`. -/
theorem C6_partition (deletions chunk_size : Int)
    (hd : 0 ≤ deletions) (hcs : 1 ≤ chunk_size) :
    chunk_num deletions chunk_size * chunk_size +
        remains deletions chunk_size = deletions ∧
    0 ≤ remains deletions chunk_size ∧
    remains deletions chunk_size < chunk_size := by
  have h0 : (0:Int) < chunk_size := hcs
  refine ⟨?_, Int.fmod_nonneg' _ h0, Int.fmod_lt_of_pos _ h0⟩
  have h := Int.fdiv_add_fmod deletions chunk_size
  unfold chunk_num remains
  linarith [h]

/-- Witness for C6 at `deletions = 35`, `chunkSize = 20`. -/
theorem C6_partition_witness :
    (0:Int) ≤ 35 ∧ (1:Int) ≤ 20 ∧
    (chunk_num 35 20 * 20 + remains 35 20 = 35 ∧
      0 ≤ remains 35 20 ∧ remains 35 20 < 20) :=
  ⟨by decide, by decide, C6_partition 35 20 (by decide) (by decide)⟩

/-- C7: if `total ≤ keepCount` or `maxDelete = 0` (with a nonnegative
cap and a nonzero chunk size), a run returns 0 having issued nothing but
the initial count query: no id fetch, no log, no POST. -/
theorem C7_no_eligible (srv : Server)
    (keep_history_size chunk_size max_delete_size : Int) (dry_run : Bool)
    (hm : 0 ≤ max_delete_size) (hcs : chunk_size ≠ 0)
    (h : srv.total ≤ keep_history_size ∨ max_delete_size = 0) :
    purge_history srv keep_history_size chunk_size max_delete_size dry_run =
      some (0, [Event.countQuery]) := by
  have hD : plannedDeletions srv.total keep_history_size max_delete_size = 0 := by
    unfold plannedDeletions clampedKeep
    rcases h with h | h <;> omega
  simp [purge_history, hD, chunk_num, remains, hcs, runChunks]

/-- Witness for C7: a server with 4 records, keeping 100, cap 5. -/
theorem C7_no_eligible_witness :
    purge_history (mkServer 4) 100 2 5 false = some (0, [Event.countQuery]) :=
  C7_no_eligible (mkServer 4) 100 2 5 false (by decide) (by decide)
    (Or.inl (by decide))

/-- C8 counterexample: the claim quantifies over any integer inputs
accepted at the interface, but `argparse` accepts a negative
`--max_delete_size`, and at `total = 0`, `keepCount = 0`,
`maxDelete = -1` the derived deletion count is `-1 < 0`. -/
theorem C8_counterexample : plannedDeletions 0 0 (-1) < 0 := by decide

/-- C8 amended: the clamped keep count never exceeds `total` for any
integer inputs, and the derived deletion count is nonnegative whenever
`maxDelete ≥ 0`. -/
theorem C8_plan_invariant (total keep_history_size max_delete_size : Int) :
    clampedKeep total keep_history_size ≤ total ∧
    (0 ≤ max_delete_size →
      0 ≤ plannedDeletions total keep_history_size max_delete_size) := by
  unfold plannedDeletions clampedKeep
  omega

/-- Witness for C8 at `total = 5`, `keepCount = 2`, `maxDelete = 3`. -/
theorem C8_plan_invariant_witness :
    clampedKeep 5 2 ≤ 5 ∧ ((0:Int) ≤ 3 → 0 ≤ plannedDeletions 5 2 3) :=
  C8_plan_invariant 5 2 3

end RdPurge

namespace RdPurge

/-- Under `dry_run` the client only logs the batch and returns 0. -/
theorem delete_executions_dry (srv : Server) (ids : List Nat) :
    delete_executions srv ids true = (0, [Event.logPurge ids]) := rfl

/-- A dry-run chunk loop accumulates a zero count and emits no POST. -/
theorem runChunks_dry (srv : Server) (total chunk_size : Int) (n : Nat) :
    (runChunks srv total chunk_size true n).2.1 = 0 ∧
    ∀ e ∈ (runChunks srv total chunk_size true n).2.2, e.isPost = false := by
  induction n with
  | zero =>
    refine ⟨rfl, ?_⟩
    intro e he
    simp [runChunks] at he
  | succ k ih =>
    constructor
    · simp [runChunks, delete_executions_dry, ih.1]
    · intro e he
      simp only [runChunks, delete_executions_dry, List.mem_append,
        List.mem_cons, List.mem_singleton] at he
      rcases he with he | he | he
      · exact ih.2 e he
      · subst he; rfl
      · simp at he
        subst he; rfl

end RdPurge

namespace RdPurge

/-- C4: whenever a dry run completes, the returned deleted count is 0 and
no destructive `POST executions/delete` event occurs in the trace (the
eligible ids are still fetched and logged). -/
theorem C4_dry_run (srv : Server)
    (keep_history_size chunk_size max_delete_size : Int)
    (r : Int) (evs : List Event)
    (h : purge_history srv keep_history_size chunk_size max_delete_size true =
      some (r, evs)) :
    r = 0 ∧ ∀ e ∈ evs, e.isPost = false := by
  simp only [purge_history] at h
  split at h
  · exact absurd h (by simp)
  · split at h
    · rw [delete_executions_dry] at h
      simp only [Option.some.injEq, Prod.mk.injEq] at h
      obtain ⟨hr, hevs⟩ := h
      subst hr
      subst hevs
      obtain ⟨hz, hp⟩ := runChunks_dry srv srv.total chunk_size
        (chunk_num (plannedDeletions srv.total keep_history_size
          max_delete_size) chunk_size).toNat
      refine ⟨by simp [hz], ?_⟩
      intro e he
      simp only [List.mem_cons, List.mem_append, List.mem_singleton] at he
      rcases he with he | he | he | he | he
      · subst he; rfl
      · exact hp e he
      · subst he; rfl
      · subst he; rfl
      · exact absurd he (List.not_mem_nil e)
    · simp only [Option.some.injEq, Prod.mk.injEq] at h
      obtain ⟨hr, hevs⟩ := h
      subst hr
      subst hevs
      obtain ⟨hz, hp⟩ := runChunks_dry srv srv.total chunk_size
        (chunk_num (plannedDeletions srv.total keep_history_size
          max_delete_size) chunk_size).toNat
      refine ⟨hz, ?_⟩
      intro e he
      simp only [List.mem_cons] at he
      rcases he with he | he
      · subst he; rfl
      · exact hp e he

end RdPurge

namespace RdPurge

theorem fetches_cons_countQuery (l : List Event) :
    fetches (Event.countQuery :: l) = fetches l := rfl

theorem fetches_cons_fetch (o m : Int) (l : List Event) :
    fetches (Event.fetch o m :: l) = (o, m) :: fetches l := rfl

theorem fetches_append (a b : List Event) :
    fetches (a ++ b) = fetches a ++ fetches b := by
  simp [fetches, List.filterMap_append]

/-- The deletion call never emits a history fetch. -/
theorem fetches_delete (srv : Server) (ids : List Nat) (dry : Bool) :
    fetches (delete_executions srv ids dry).2 = [] := by
  cases dry
  · cases h : (srv.deleteResp ids).allsuccessful <;>
      simp [delete_executions, fetches, h]
  · simp [delete_executions, fetches]

/-- The fetch requests of the chunk loop: offset `total - chunk_size * (i+1)`
and page size `chunk_size`, for `i = 0, …, n-1` in that order. -/
theorem fetches_runChunks (srv : Server) (total chunk_size : Int)
    (dry : Bool) (n : Nat) :
    fetches (runChunks srv total chunk_size dry n).2.2 =
      (List.range n).map
        (fun (i : Nat) =>
          (total - chunk_size * ((i : Int) + 1), chunk_size)) := by
  induction n with
  | zero => rfl
  | succ k ih =>
    simp only [runChunks, List.range_succ, List.map_append, List.map_cons,
      List.map_nil]
    rw [fetches_append, ih, fetches_cons_fetch, fetches_delete]

/-- The `offset` variable after `n` loop iterations. -/
theorem runChunks_fst (srv : Server) (total chunk_size : Int)
    (dry : Bool) (n : Nat) :
    (runChunks srv total chunk_size dry n).1 =
      if n = 0 then total else total - chunk_size * (n : Int) := by
  cases n with
  | zero => rfl
  | succ k =>
    rw [if_neg (Nat.succ_ne_zero k)]
    simp only [runChunks]
    push_cast
    ring_nf

end RdPurge

namespace RdPurge

/-- C2 counterexample: in the scenario `total = 100`, `keepCount = 20`,
`maxDelete = 1000`, `chunkSize = 20` the fetch offsets are not
`20, 40, 60, 80` in that order (they are `80, 60, 40, 20`: the loop
starts at the oldest eligible chunk). -/
theorem C2_counterexample :
    (purge_history (mkServer 100) 20 20 1000 false).map
        (fun p => fetches p.2) ≠
      some [(20, 20), (40, 20), (60, 20), (80, 20)] := by decide

/-- C2 amended: in every completed run with `chunkSize ≥ 1` the fetch
offsets strictly decrease along the trace, i.e. chunks are deleted from
the oldest eligible records toward the most recent eligible ones; in the
scenario `total = 100`, `keepCount = 20`, `maxDelete = 1000`,
`chunkSize = 20` the offsets used are `80, 60, 40, 20` in that order,
each fetch returns 20 ids, and all 80 are deleted. -/
theorem C2_chunk_order :
    (∀ (srv : Server) (keep_history_size chunk_size max_delete_size : Int)
        (dry_run : Bool) (r : Int) (evs : List Event),
      1 ≤ chunk_size →
      purge_history srv keep_history_size chunk_size max_delete_size
          dry_run = some (r, evs) →
      List.Pairwise (fun (a b : Int × Int) => b.1 < a.1) (fetches evs)) ∧
    purge_history (mkServer 100) 20 20 1000 false =
      some (80, [Event.countQuery,
        Event.fetch 80 20,
        Event.logPurge [80, 81, 82, 83, 84, 85, 86, 87, 88, 89,
          90, 91, 92, 93, 94, 95, 96, 97, 98, 99],
        Event.post [80, 81, 82, 83, 84, 85, 86, 87, 88, 89,
          90, 91, 92, 93, 94, 95, 96, 97, 98, 99],
        Event.fetch 60 20,
        Event.logPurge [60, 61, 62, 63, 64, 65, 66, 67, 68, 69,
          70, 71, 72, 73, 74, 75, 76, 77, 78, 79],
        Event.post [60, 61, 62, 63, 64, 65, 66, 67, 68, 69,
          70, 71, 72, 73, 74, 75, 76, 77, 78, 79],
        Event.fetch 40 20,
        Event.logPurge [40, 41, 42, 43, 44, 45, 46, 47, 48, 49,
          50, 51, 52, 53, 54, 55, 56, 57, 58, 59],
        Event.post [40, 41, 42, 43, 44, 45, 46, 47, 48, 49,
          50, 51, 52, 53, 54, 55, 56, 57, 58, 59],
        Event.fetch 20 20,
        Event.logPurge [20, 21, 22, 23, 24, 25, 26, 27, 28, 29,
          30, 31, 32, 33, 34, 35, 36, 37, 38, 39],
        Event.post [20, 21, 22, 23, 24, 25, 26, 27, 28, 29,
          30, 31, 32, 33, 34, 35, 36, 37, 38, 39]]) := by
  constructor
  · intro srv keep_history_size chunk_size max_delete_size dry_run r evs
      hcs h
    have hcs0 : (0:Int) < chunk_size := hcs
    simp only [purge_history] at h
    rw [if_neg (by omega : ¬ chunk_size = 0)] at h
    split at h
    case isTrue hpos =>
      simp only [Option.some.injEq, Prod.mk.injEq] at h
      obtain ⟨hr, hevs⟩ := h
      subst hevs
      rw [fetches_cons_countQuery, fetches_append, fetches_cons_fetch,
        fetches_delete, fetches_runChunks, runChunks_fst,
        List.pairwise_append]
      refine ⟨?_, List.pairwise_singleton _ _, ?_⟩
      · rw [List.pairwise_map]
        refine (List.pairwise_lt_range _).imp ?_
        intro i j hij
        have h1 : ((i:Int) + 1) < (j:Int) + 1 := by omega
        have h2 : chunk_size * ((i:Int) + 1) < chunk_size * ((j:Int) + 1) :=
          Int.mul_lt_mul_of_pos_left h1 hcs0
        dsimp only
        linarith
      · intro a ha b hb
        rw [List.mem_singleton] at hb
        subst hb
        rw [List.mem_map] at ha
        obtain ⟨i, hi, rfl⟩ := ha
        rw [List.mem_range] at hi
        have hn0 : (chunk_num (plannedDeletions srv.total keep_history_size
            max_delete_size) chunk_size).toNat ≠ 0 := by omega
        rw [if_neg hn0]
        dsimp only
        have hi1 : ((i:Int) + 1) ≤
            ((chunk_num (plannedDeletions srv.total keep_history_size
              max_delete_size) chunk_size).toNat : Int) := by
          omega
        have h2 : chunk_size * ((i:Int) + 1) ≤
            chunk_size * ((chunk_num (plannedDeletions srv.total
              keep_history_size max_delete_size) chunk_size).toNat : Int) :=
          mul_le_mul_of_nonneg_left hi1 (le_of_lt hcs0)
        linarith [hpos]
    case isFalse hneg =>
      simp only [Option.some.injEq, Prod.mk.injEq] at h
      obtain ⟨hr, hevs⟩ := h
      subst hevs
      rw [fetches_cons_countQuery, fetches_runChunks, List.pairwise_map]
      refine (List.pairwise_lt_range _).imp ?_
      intro i j hij
      have h1 : ((i:Int) + 1) < (j:Int) + 1 := by omega
      have h2 : chunk_size * ((i:Int) + 1) < chunk_size * ((j:Int) + 1) :=
        Int.mul_lt_mul_of_pos_left h1 hcs0
      dsimp only
      linarith
  · decide

/-- Witness for the general part of `C2_chunk_order`, on a 9-record
server with `keepCount = 2`, `chunkSize = 3`, `maxDelete = 100`. -/
theorem C2_chunk_order_witness :
    List.Pairwise (fun (a b : Int × Int) => b.1 < a.1)
      (fetches [Event.countQuery, Event.fetch 6 3, Event.logPurge [6, 7, 8],
        Event.post [6, 7, 8], Event.fetch 3 3, Event.logPurge [3, 4, 5],
        Event.post [3, 4, 5], Event.fetch 2 1, Event.logPurge [2],
        Event.post [2]]) :=
  C2_chunk_order.1 (mkServer 9) 2 3 100 false 7
    [Event.countQuery, Event.fetch 6 3, Event.logPurge [6, 7, 8],
      Event.post [6, 7, 8], Event.fetch 3 3, Event.logPurge [3, 4, 5],
      Event.post [3, 4, 5], Event.fetch 2 1, Event.logPurge [2],
      Event.post [2]] (by decide) (by decide)

end RdPurge

namespace RdPurge

/-- C3 counterexample: in the scenario `total = 55`, `keepCount = 20`,
`maxDelete = 1000`, `chunkSize = 20` the run does not use offset 15 for
the full chunk and offset 0 for the remainder batch (it uses 35 and 20). -/
theorem C3_counterexample :
    (purge_history (mkServer 55) 20 20 1000 false).map
        (fun p => fetches p.2) ≠
      some [(15, 20), (0, 15)] := by decide

/-- C3 amended: in every completed run over the nonnegative domain with
`chunkSize ≥ 1`, when the remainder is positive the fetch requests are
exactly the full chunks followed by one final batch whose page size is
exactly the remainder, at offset `total - deletions` — the most recent
eligible records; in particular, for `total = 55`, `keepCount = 20`,
`maxDelete = 1000`, `chunkSize = 20` the plan is `deletions = 35` and
the run issues one full chunk at offset 35 (the oldest 20 eligible
records) plus the remainder batch of 15 at offset 20, deleting 35
records in total under full success. -/
theorem C3_remainder_batch :
    (∀ (srv : Server) (keep_history_size chunk_size max_delete_size : Int)
        (dry_run : Bool) (r : Int) (evs : List Event),
      0 ≤ srv.total → 0 ≤ keep_history_size → 0 ≤ max_delete_size →
      1 ≤ chunk_size →
      purge_history srv keep_history_size chunk_size max_delete_size
          dry_run = some (r, evs) →
      0 < remains (plannedDeletions srv.total keep_history_size
        max_delete_size) chunk_size →
      fetches evs =
        (List.range (chunk_num (plannedDeletions srv.total
            keep_history_size max_delete_size) chunk_size).toNat).map
          (fun (i : Nat) =>
            (srv.total - chunk_size * ((i : Int) + 1), chunk_size)) ++
        [(srv.total - plannedDeletions srv.total keep_history_size
            max_delete_size,
          remains (plannedDeletions srv.total keep_history_size
            max_delete_size) chunk_size)]) ∧
    plannedDeletions 55 20 1000 = 35 ∧
    purge_history (mkServer 55) 20 20 1000 false =
      some (35, [Event.countQuery,
        Event.fetch 35 20,
        Event.logPurge [35, 36, 37, 38, 39, 40, 41, 42, 43, 44,
          45, 46, 47, 48, 49, 50, 51, 52, 53, 54],
        Event.post [35, 36, 37, 38, 39, 40, 41, 42, 43, 44,
          45, 46, 47, 48, 49, 50, 51, 52, 53, 54],
        Event.fetch 20 15,
        Event.logPurge [20, 21, 22, 23, 24, 25, 26, 27, 28, 29,
          30, 31, 32, 33, 34],
        Event.post [20, 21, 22, 23, 24, 25, 26, 27, 28, 29,
          30, 31, 32, 33, 34]]) := by
  refine ⟨?_, by decide, by decide⟩
  intro srv keep_history_size chunk_size max_delete_size dry_run r evs
    ht hk hm hcs h hpos
  have hcs0 : (0:Int) < chunk_size := hcs
  have hD0 : 0 ≤ plannedDeletions srv.total keep_history_size
      max_delete_size := le_min hm (by simp only [clampedKeep]; omega)
  have hsum : chunk_size * chunk_num (plannedDeletions srv.total
        keep_history_size max_delete_size) chunk_size +
      remains (plannedDeletions srv.total keep_history_size
        max_delete_size) chunk_size =
      plannedDeletions srv.total keep_history_size max_delete_size :=
    Int.fdiv_add_fmod _ _
  have hcn0 : 0 ≤ chunk_num (plannedDeletions srv.total keep_history_size
      max_delete_size) chunk_size := Int.fdiv_nonneg hD0 (le_of_lt hcs0)
  have hcnnat : ((chunk_num (plannedDeletions srv.total keep_history_size
        max_delete_size) chunk_size).toNat : Int) =
      chunk_num (plannedDeletions srv.total keep_history_size
        max_delete_size) chunk_size := Int.toNat_of_nonneg hcn0
  simp only [purge_history] at h
  rw [if_neg (by omega : ¬ chunk_size = 0)] at h
  split at h
  case isTrue hp =>
    simp only [Option.some.injEq, Prod.mk.injEq] at h
    obtain ⟨hr, hevs⟩ := h
    subst hevs
    rw [fetches_cons_countQuery, fetches_append, fetches_cons_fetch,
      fetches_delete, fetches_runChunks, runChunks_fst]
    have hoff : (if (chunk_num (plannedDeletions srv.total
          keep_history_size max_delete_size) chunk_size).toNat = 0 then
          srv.total
        else srv.total - chunk_size * ((chunk_num (plannedDeletions
          srv.total keep_history_size max_delete_size)
          chunk_size).toNat : Int)) -
        remains (plannedDeletions srv.total keep_history_size
          max_delete_size) chunk_size =
        srv.total - plannedDeletions srv.total keep_history_size
          max_delete_size := by
      by_cases hn : (chunk_num (plannedDeletions srv.total
          keep_history_size max_delete_size) chunk_size).toNat = 0
      · rw [if_pos hn]
        have hcn : chunk_num (plannedDeletions srv.total
            keep_history_size max_delete_size) chunk_size = 0 := by omega
        rw [hcn, mul_zero] at hsum
        omega
      · rw [if_neg hn, hcnnat]
        linarith
    rw [hoff]
  case isFalse hneg =>
    exact absurd hpos hneg

/-- Witness for the general part of C3 on a 9-record server keeping 2
with `chunkSize = 3`, `maxDelete = 100`: the plan is `deletions = 7`,
two full chunks at offsets 6 and 3, then the remainder batch of exactly
one record at offset `9 - 7 = 2`. -/
theorem C3_remainder_batch_witness :
    fetches [Event.countQuery, Event.fetch 6 3, Event.logPurge [6, 7, 8],
        Event.post [6, 7, 8], Event.fetch 3 3, Event.logPurge [3, 4, 5],
        Event.post [3, 4, 5], Event.fetch 2 1, Event.logPurge [2],
        Event.post [2]] =
      (List.range (chunk_num (plannedDeletions (mkServer 9).total 2 100)
          3).toNat).map
        (fun (i : Nat) => ((mkServer 9).total - 3 * ((i : Int) + 1), 3)) ++
      [((mkServer 9).total - plannedDeletions (mkServer 9).total 2 100,
        remains (plannedDeletions (mkServer 9).total 2 100) 3)] :=
  C3_remainder_batch.1 (mkServer 9) 2 3 100 false 7
    [Event.countQuery, Event.fetch 6 3, Event.logPurge [6, 7, 8],
      Event.post [6, 7, 8], Event.fetch 3 3, Event.logPurge [3, 4, 5],
      Event.post [3, 4, 5], Event.fetch 2 1, Event.logPurge [2],
      Event.post [2]]
    (by decide) (by decide) (by decide) (by decide) (by decide) (by decide)

/-- Witness for C4 on a dry run over a 4-record server keeping 1:
the ids are fetched and logged, the count is 0 and no POST occurs. -/
theorem C4_dry_run_witness :
    purge_history (mkServer 4) 1 2 100 true =
      some (0, [Event.countQuery, Event.fetch 2 2, Event.logPurge [2, 3],
        Event.fetch 1 1, Event.logPurge [1]]) ∧
    ((0 : Int) = 0 ∧ ∀ e ∈ [Event.countQuery, Event.fetch 2 2,
        Event.logPurge [2, 3], Event.fetch 1 1, Event.logPurge [1]],
      e.isPost = false) :=
  ⟨by decide, C4_dry_run (mkServer 4) 1 2 100 0
    [Event.countQuery, Event.fetch 2 2, Event.logPurge [2, 3],
      Event.fetch 1 1, Event.logPurge [1]] (by decide)⟩

/-- C5: when the server reports `allsuccessful == "false"` with a
confirmed count `k`, `delete_executions` returns `k` (no exception),
after logging the error messages; and the run carries on: in the
`srvPartFail` run the first chunk of 20 is confirmed only for 18, the
error is logged, 18 is added to the total, and the remainder batch of 15
is still fetched and deleted, for a final count of 33. -/
theorem C5_mixed_success (srv : Server) (ids : List Nat)
    (h : (srv.deleteResp ids).allsuccessful = false) :
    delete_executions srv ids false =
      ((srv.deleteResp ids).count,
        [Event.logPurge ids, Event.post ids,
          Event.logError (srv.deleteResp ids).messages]) ∧
    purge_history srvPartFail 20 20 1000 false =
      some (33, [Event.countQuery,
        Event.fetch 35 20,
        Event.logPurge [35, 36, 37, 38, 39, 40, 41, 42, 43, 44,
          45, 46, 47, 48, 49, 50, 51, 52, 53, 54],
        Event.post [35, 36, 37, 38, 39, 40, 41, 42, 43, 44,
          45, 46, 47, 48, 49, 50, 51, 52, 53, 54],
        Event.logError ["Unauthorized"],
        Event.fetch 20 15,
        Event.logPurge [20, 21, 22, 23, 24, 25, 26, 27, 28, 29,
          30, 31, 32, 33, 34],
        Event.post [20, 21, 22, 23, 24, 25, 26, 27, 28, 29,
          30, 31, 32, 33, 34]]) := by
  constructor
  · simp [delete_executions, h]
  · decide

/-- Witness for C5: a batch containing id 35 against `srvPartFail`. -/
theorem C5_mixed_success_witness :
    delete_executions srvPartFail [35] false =
      (18, [Event.logPurge [35], Event.post [35],
        Event.logError ["Unauthorized"]]) :=
  (C5_mixed_success srvPartFail [35] (by decide)).1

/-- C10: the slice `ids[-chunk_size:]` caps every full-chunk batch at
`chunk_size` ids even when the server returns more, while the remainder
batch is handed to deletion untruncated: against `srvOver` (which
answers every fetch with seven ids) the single full chunk posts only the
last two ids, while the remainder batch of requested size 1 posts all
seven. -/
theorem C10_truncation :
    (∀ (l : List Nat) (chunk_size : Int), 1 ≤ chunk_size →
      (pySliceLast l chunk_size).length ≤ chunk_size.toNat) ∧
    purge_history srvOver 0 2 3 false =
      some (9, [Event.countQuery, Event.fetch 3 2, Event.logPurge [5, 6],
        Event.post [5, 6], Event.fetch 2 1,
        Event.logPurge [0, 1, 2, 3, 4, 5, 6],
        Event.post [0, 1, 2, 3, 4, 5, 6]]) := by
  constructor
  · intro l chunk_size hcs
    unfold pySliceLast
    rw [if_neg (by omega), if_pos (by omega), List.length_drop]
    omega
  · decide

/-- Witness for C10 on the list `[7, 8, 9]` with `chunkSize = 2`. -/
theorem C10_truncation_witness :
    (pySliceLast [7, 8, 9] 2).length ≤ (2 : Int).toNat :=
  C10_truncation.1 [7, 8, 9] 2 (by decide)

end RdPurge

namespace RdPurge

/-- The deletion call never emits a history fetch event. -/
theorem fetch_not_mem_delete (srv : Server) (ids : List Nat) (dry : Bool)
    (o m : Int) : Event.fetch o m ∉ (delete_executions srv ids dry).2 := by
  cases dry
  · cases h : (srv.deleteResp ids).allsuccessful <;>
      simp [delete_executions, h]
  · simp [delete_executions]

/-- Every fetch event of the chunk loop has offset
`total - chunk_size * (i + 1)` for some iteration `i < n`, and page size
`chunk_size`. -/
theorem runChunks_fetch_mem (srv : Server) (total chunk_size : Int)
    (dry : Bool) :
    ∀ (n : Nat) (o m : Int),
      Event.fetch o m ∈ (runChunks srv total chunk_size dry n).2.2 →
      ∃ i : Nat, i < n ∧ o = total - chunk_size * ((i : Int) + 1) ∧
        m = chunk_size := by
  intro n
  induction n with
  | zero =>
    intro o m h
    simp [runChunks] at h
  | succ k ih =>
    intro o m h
    simp only [runChunks, List.mem_append, List.mem_cons,
      Event.fetch.injEq] at h
    rcases h with h | h | h
    · obtain ⟨i, hik, ho, hm⟩ := ih o m h
      exact ⟨i, Nat.lt_succ_of_lt hik, ho, hm⟩
    · exact ⟨k, Nat.lt_succ_self k, h.1, h.2⟩
    · exact absurd h (fetch_not_mem_delete srv _ dry o m)

/-- C9: in every completed run with nonnegative `total`, `keepCount`,
`maxDelete` and `chunkSize ≥ 1`, every offset passed to the
execution-id fetch — the full chunks and the remainder batch alike — is
at least the clamped keep count `min total keepCount` (and in
particular nonnegative), so no fetch window starts inside the
`keepCount` most recent records. -/
theorem C9_offsets (srv : Server)
    (keep_history_size chunk_size max_delete_size : Int) (dry_run : Bool)
    (r : Int) (evs : List Event)
    (ht : 0 ≤ srv.total) (hk : 0 ≤ keep_history_size)
    (hm : 0 ≤ max_delete_size) (hcs : 1 ≤ chunk_size)
    (h : purge_history srv keep_history_size chunk_size max_delete_size
      dry_run = some (r, evs)) :
    ∀ o m, Event.fetch o m ∈ evs →
      clampedKeep srv.total keep_history_size ≤ o ∧ 0 ≤ o := by
  intro o m hmem
  have hcs0 : (0:Int) < chunk_size := hcs
  have hK0 : 0 ≤ clampedKeep srv.total keep_history_size :=
    le_min ht hk
  have hKT : clampedKeep srv.total keep_history_size ≤ srv.total :=
    min_le_left _ _
  have hD0 : 0 ≤ plannedDeletions srv.total keep_history_size
      max_delete_size := le_min hm (by omega)
  have hDle : plannedDeletions srv.total keep_history_size
        max_delete_size ≤
      srv.total - clampedKeep srv.total keep_history_size :=
    min_le_right _ _
  have hsum : chunk_size * chunk_num (plannedDeletions srv.total
        keep_history_size max_delete_size) chunk_size +
      remains (plannedDeletions srv.total keep_history_size
        max_delete_size) chunk_size =
      plannedDeletions srv.total keep_history_size max_delete_size :=
    Int.fdiv_add_fmod _ _
  have hrem0 : 0 ≤ remains (plannedDeletions srv.total keep_history_size
      max_delete_size) chunk_size := Int.fmod_nonneg' _ hcs0
  have hcn0 : 0 ≤ chunk_num (plannedDeletions srv.total keep_history_size
      max_delete_size) chunk_size := Int.fdiv_nonneg hD0 (le_of_lt hcs0)
  have hcnnat : ((chunk_num (plannedDeletions srv.total keep_history_size
        max_delete_size) chunk_size).toNat : Int) =
      chunk_num (plannedDeletions srv.total keep_history_size
        max_delete_size) chunk_size := Int.toNat_of_nonneg hcn0
  have chunkBound : ∀ i : Nat,
      i < (chunk_num (plannedDeletions srv.total keep_history_size
        max_delete_size) chunk_size).toNat →
      clampedKeep srv.total keep_history_size ≤
        srv.total - chunk_size * ((i : Int) + 1) := by
    intro i hi
    have h1 : ((i : Int) + 1) ≤ chunk_num (plannedDeletions srv.total
        keep_history_size max_delete_size) chunk_size := by omega
    have h2 : chunk_size * ((i : Int) + 1) ≤
        chunk_size * chunk_num (plannedDeletions srv.total
          keep_history_size max_delete_size) chunk_size :=
      mul_le_mul_of_nonneg_left h1 (le_of_lt hcs0)
    linarith
  simp only [purge_history] at h
  rw [if_neg (by omega : ¬ chunk_size = 0)] at h
  split at h
  case isTrue hpos =>
    simp only [Option.some.injEq, Prod.mk.injEq] at h
    obtain ⟨hr, hevs⟩ := h
    subst hevs
    simp only [List.mem_cons, List.mem_append] at hmem
    rcases hmem with hmem | hmem | hmem | hmem
    · exact absurd hmem (by simp)
    · obtain ⟨i, hi, rfl, rfl⟩ :=
        runChunks_fetch_mem srv srv.total chunk_size dry_run _ o m hmem
      have := chunkBound i hi
      exact ⟨this, by omega⟩
    · rw [Event.fetch.injEq] at hmem
      obtain ⟨ho, hmm⟩ := hmem
      subst ho
      rw [runChunks_fst]
      by_cases hn : (chunk_num (plannedDeletions srv.total
          keep_history_size max_delete_size) chunk_size).toNat = 0
      · rw [if_pos hn]
        have hcn : chunk_num (plannedDeletions srv.total
            keep_history_size max_delete_size) chunk_size = 0 := by omega
        rw [hcn, mul_zero] at hsum
        constructor <;> omega
      · rw [if_neg hn]
        have h2 : chunk_size * ((chunk_num (plannedDeletions srv.total
            keep_history_size max_delete_size) chunk_size).toNat : Int) =
            chunk_size * chunk_num (plannedDeletions srv.total
              keep_history_size max_delete_size) chunk_size := by
          rw [hcnnat]
        constructor <;> linarith
    · exact absurd hmem (fetch_not_mem_delete srv _ dry_run o m)
  case isFalse hneg =>
    simp only [Option.some.injEq, Prod.mk.injEq] at h
    obtain ⟨hr, hevs⟩ := h
    subst hevs
    simp only [List.mem_cons] at hmem
    rcases hmem with hmem | hmem
    · exact absurd hmem (by simp)
    · obtain ⟨i, hi, rfl, rfl⟩ :=
        runChunks_fetch_mem srv srv.total chunk_size dry_run _ o m hmem
      have := chunkBound i hi
      exact ⟨this, by omega⟩

/-- Witness for C9: the fetch at offset 2 in a run over a 4-record
server keeping 1 with `chunkSize = 2`, `maxDelete = 100`. -/
theorem C9_offsets_witness :
    clampedKeep (mkServer 4).total 1 ≤ 2 ∧ (0 : Int) ≤ 2 :=
  C9_offsets (mkServer 4) 1 2 100 false 3
    [Event.countQuery, Event.fetch 2 2, Event.logPurge [2, 3],
      Event.post [2, 3], Event.fetch 1 1, Event.logPurge [1],
      Event.post [1]]
    (by decide) (by decide) (by decide) (by decide) (by decide)
    2 2 (by decide)

end RdPurge
